import Mathlib

/-! Verification of the `strategy_crypto` crate (src/strategy_crypto/src/lib.rs):
key normalization (`parse_key`), authenticated encryption (`encrypt_bytes`) and
decryption (`decrypt_bytes`).  Rust `&str` values are embedded as their UTF-8
byte sequences (`List Nat`, each element a byte), and `&[u8]` / `Vec<u8>` as
`List Nat`.  The external AES-256-GCM primitive is not part of the repository;
it is modelled from the spec's AEAD contract (see `aeadSeal` / `aeadOpen`). -/

namespace StrategyCrypto

/-! ## Hex codec (embedding of the `hex` crate functions used by the source) -/

/-- Value of an ASCII byte as a hex digit: digits, lowercase and uppercase
letters are accepted, as in `hex::decode`. -/
def hexVal (c : Nat) : Option Nat :=
  if 48 ≤ c ∧ c ≤ 57 then some (c - 48)
  else if 97 ≤ c ∧ c ≤ 102 then some (c - 87)
  else if 65 ≤ c ∧ c ≤ 70 then some (c - 55)
  else none

/-- Embedding of `hex::decode`: consume two hex digits per output byte; fail on
an odd-length input or any byte that is not a hex digit. -/
def hexDecode : List Nat → Option (List Nat)
  | [] => some []
  | [_] => none
  | a :: b :: rest =>
    match hexVal a, hexVal b, hexDecode rest with
    | some hi, some lo, some tl => some ((hi * 16 + lo) :: tl)
    | _, _, _ => none

/-- Lowercase ASCII hex digit of a value below 16, as produced by
`hex::encode`. -/
def hexDigit (n : Nat) : Nat :=
  if n < 10 then 48 + n else 87 + n

/-- Embedding of `hex::encode` (lowercase): two hex digits per byte. -/
def hexEncode : List Nat → List Nat
  | [] => []
  | b :: rest => hexDigit (b / 16) :: hexDigit (b % 16) :: hexEncode rest

/-! ## Base64 codec (embedding of `base64::engine::general_purpose::STANDARD`:
standard alphabet, canonical padding required, trailing bits must be zero) -/

/-- Value of an ASCII byte in the standard base64 alphabet. -/
def b64Val (c : Nat) : Option Nat :=
  if 65 ≤ c ∧ c ≤ 90 then some (c - 65)
  else if 97 ≤ c ∧ c ≤ 122 then some (c - 97 + 26)
  else if 48 ≤ c ∧ c ≤ 57 then some (c - 48 + 52)
  else if c = 43 then some 62
  else if c = 47 then some 63
  else none

/-- ASCII byte of a sextet value below 64 in the standard base64 alphabet. -/
def b64Char (n : Nat) : Nat :=
  if n < 26 then 65 + n
  else if n < 52 then 97 + (n - 26)
  else if n < 62 then 48 + (n - 52)
  else if n = 62 then 43
  else 47

/-- Embedding of `STANDARD.decode`: input must be a sequence of 4-byte quanta;
`=` padding may occur only at the very end (one or two pad bytes), and the
unused low bits of the last sextet must be zero (`decode_allow_trailing_bits`
is false in the STANDARD engine). -/
def b64Decode : List Nat → Option (List Nat)
  | [] => some []
  | a :: b :: c :: d :: rest =>
    match b64Val a, b64Val b with
    | some va, some vb =>
      if c = 61 then
        if d = 61 ∧ rest = [] ∧ vb % 16 = 0 then
          some [va * 4 + vb / 16]
        else none
      else
        match b64Val c with
        | some vc =>
          if d = 61 then
            if rest = [] ∧ vc % 4 = 0 then
              some [va * 4 + vb / 16, (vb % 16) * 16 + vc / 4]
            else none
          else
            match b64Val d, b64Decode rest with
            | some vd, some tl =>
              some ((va * 4 + vb / 16) :: ((vb % 16) * 16 + vc / 4) ::
                    ((vc % 4) * 64 + vd) :: tl)
            | _, _ => none
        | none => none
    | _, _ => none
  | _ => none

/-- Embedding of `STANDARD.encode`: three bytes to four sextet characters,
padded with `=` at the end. -/
def b64Encode : List Nat → List Nat
  | [] => []
  | [a] => [b64Char (a / 4), b64Char ((a % 4) * 16), 61, 61]
  | [a, b] => [b64Char (a / 4), b64Char ((a % 4) * 16 + b / 16),
               b64Char ((b % 16) * 4), 61]
  | a :: b :: c :: rest =>
    b64Char (a / 4) :: b64Char ((a % 4) * 16 + b / 16) ::
    b64Char ((b % 16) * 4 + c / 64) :: b64Char (c % 64) :: b64Encode rest

/-! ## UTF-8 shape of Rust strings.  A Rust `&str` is a byte sequence that is
valid UTF-8; the validator below implements the exact well-formedness rules
(no overlong forms, no surrogates, maximum U+10FFFF). -/

/-- Whether a byte is a UTF-8 continuation byte (`10xxxxxx`). -/
def isCont (b : Nat) : Bool := 128 ≤ b ∧ b ≤ 191

/-- Whether a byte sequence is valid UTF-8, i.e. is the encoding of some Rust
string. -/
def validUtf8 : List Nat → Bool
  | [] => true
  | b :: rest =>
    if b ≤ 127 then validUtf8 rest
    else if 194 ≤ b ∧ b ≤ 223 then
      match rest with
      | c :: r => isCont c && validUtf8 r
      | [] => false
    else if b = 224 then
      match rest with
      | c :: d :: r => (160 ≤ c && c ≤ 191) && isCont d && validUtf8 r
      | _ => false
    else if (225 ≤ b ∧ b ≤ 236) ∨ b = 238 ∨ b = 239 then
      match rest with
      | c :: d :: r => isCont c && isCont d && validUtf8 r
      | _ => false
    else if b = 237 then
      match rest with
      | c :: d :: r => (128 ≤ c && c ≤ 159) && isCont d && validUtf8 r
      | _ => false
    else if b = 240 then
      match rest with
      | c :: d :: e :: r => (144 ≤ c && c ≤ 191) && isCont d && isCont e && validUtf8 r
      | _ => false
    else if 241 ≤ b ∧ b ≤ 243 then
      match rest with
      | c :: d :: e :: r => isCont c && isCont d && isCont e && validUtf8 r
      | _ => false
    else if b = 244 then
      match rest with
      | c :: d :: e :: r => (128 ≤ c && c ≤ 143) && isCont d && isCont e && validUtf8 r
      | _ => false
    else false

/-- Number of characters of a UTF-8 byte sequence: one per non-continuation
byte (this is `str::chars().count()` on valid UTF-8). -/
def utf8CharCount (l : List Nat) : Nat :=
  (l.filter fun b => !(isCont b)).length

/-! ## Embedding of src/strategy_crypto/src/lib.rs -/

/-- Embedding of `DEFAULT_KEY`: the UTF-8 bytes of the 32-character ASCII
string literal in the source. -/
def DEFAULT_KEY : List Nat :=
  [97, 103, 102, 100, 115, 102, 115, 100, 97, 102, 115, 100, 97, 102, 100, 115,
   97, 102, 115, 100, 97, 102, 100, 115, 97, 102, 100, 102, 103, 104, 100, 121]

/-- Error channel of the bindings.  The source raises `PyValueError` with a
distinct message for each failure site; the constructors stand for those
distinct messages: key-format error from `parse_key`, cipher construction
error from `Aes256Gcm::new_from_slice`, the framing ("length too short")
message in `decrypt_bytes`, and the opaque `aead::Error` from the cipher. -/
inductive CryptoErr where
  | keyFormat : CryptoErr
  | cipherInit : CryptoErr
  | framing : CryptoErr
  | aeadError : CryptoErr
deriving DecidableEq, Repr

/-- Embedding of `parse_key`: empty input falls back to `DEFAULT_KEY`; a
32-byte string is taken raw; otherwise hex decoding, then base64 decoding is
tried, each accepted only when it yields exactly 32 bytes. -/
def parse_key (key_str : List Nat) : Except CryptoErr (List Nat) :=
  let key_input := if key_str = [] then DEFAULT_KEY else key_str
  if key_input.length = 32 then .ok key_input
  else
    match hexDecode key_input with
    | some raw =>
      if raw.length = 32 then .ok raw
      else
        match b64Decode key_input with
        | some raw2 => if raw2.length = 32 then .ok raw2 else .error .keyFormat
        | none => .error .keyFormat
    | none =>
      match b64Decode key_input with
      | some raw2 => if raw2.length = 32 then .ok raw2 else .error .keyFormat
      | none => .error .keyFormat

/-- Embedding of `Aes256Gcm::new_from_slice`: fails exactly when the key slice
is not 32 bytes; the cipher instance is represented by its key bytes. -/
def new_from_slice (kb : List Nat) : Except CryptoErr (List Nat) :=
  if kb.length = 32 then .ok kb else .error .cipherInit

/-- Modelled from the spec: the external AES-256-GCM keystream is not
repository code; the AEAD contract only requires ciphertext bytes to be the
plaintext bytes enciphered under (key, nonce) position by position.  This is a
concrete executable keystream with that shape. -/
def ksByte (kb nonce : List Nat) (i : Nat) : Nat :=
  (kb.foldl (fun a b => a * 131 + b) 7 * 59 +
   nonce.foldl (fun a b => a * 131 + b) 11 * 67 + i * 97) % 256

/-- XOR of a byte sequence with the keystream starting at position `i`;
applying it twice at the same position is the identity, which is how CTR-mode
enciphering and deciphering coincide. -/
def xorKs (kb nonce : List Nat) : Nat → List Nat → List Nat
  | _, [] => []
  | i, b :: rest => (b ^^^ ksByte kb nonce i) :: xorKs kb nonce (i + 1) rest

/-- Modelled from the spec: the 16-byte authentication tag of the external
AEAD, a function of key, nonce and ciphertext (the source passes no associated
data).  Concrete executable stand-in with the spec's shape. -/
def tagBytes (kb nonce ct : List Nat) : List Nat :=
  (List.range 16).map fun j =>
    (ksByte kb nonce (ct.length + j) +
     ct.foldl (fun a b => (a * 131 + b) % 256) (j + 1)) % 256

/-- Modelled from the spec: `Aes256Gcm::encrypt` ("seal"), producing
`ciphertext || tag` with the ciphertext exactly as long as the plaintext and a
16-byte tag appended. -/
def aeadSeal (kb nonce pt : List Nat) : List Nat :=
  let ct := xorKs kb nonce 0 pt
  ct ++ tagBytes kb nonce ct

/-- Modelled from the spec: `Aes256Gcm::decrypt` ("open"), authenticate then
decrypt.  An input shorter than the 16-byte tag fails; otherwise the trailing
16 bytes must equal the tag recomputed over the leading ciphertext. -/
def aeadOpen (kb nonce c : List Nat) : Option (List Nat) :=
  if c.length < 16 then none
  else if c.drop (c.length - 16) = tagBytes kb nonce (c.take (c.length - 16)) then
    some (xorKs kb nonce 0 (c.take (c.length - 16)))
  else none

/-- Embedding of `encrypt_bytes`.  The draw of 12 random bytes from `OsRng` is
modelled by passing the drawn nonce explicitly as an argument; everything else
follows the source: parse the key, build the cipher, seal, and prepend the
nonce to `ciphertext || tag`. -/
def encrypt_bytes (key : List Nat) (nonce : List Nat) (plaintext : List Nat) :
    Except CryptoErr (List Nat) :=
  match parse_key key with
  | .error e => .error e
  | .ok key_bytes =>
    match new_from_slice key_bytes with
    | .error e => .error e
    | .ok cipher => .ok (nonce ++ aeadSeal cipher nonce plaintext)

/-- Embedding of `decrypt_bytes`: reject blobs shorter than 12 bytes before
anything else, then parse the key, build the cipher, split the 12-byte nonce
off the front and open the remainder. -/
def decrypt_bytes (key : List Nat) (blob : List Nat) :
    Except CryptoErr (List Nat) :=
  if blob.length < 12 then .error .framing
  else
    match parse_key key with
    | .error e => .error e
    | .ok key_bytes =>
      match new_from_slice key_bytes with
      | .error e => .error e
      | .ok cipher =>
        match aeadOpen cipher (blob.take 12) (blob.drop 12) with
        | some pt => .ok pt
        | none => .error .aeadError

/-! ## Supporting lemmas -/

theorem xorKs_length (kb nonce : List Nat) :
    ∀ (i : Nat) (l : List Nat), (xorKs kb nonce i l).length = l.length
  | _, [] => rfl
  | i, _ :: rest => congrArg Nat.succ (xorKs_length kb nonce (i + 1) rest)

theorem xorKs_xorKs (kb nonce : List Nat) :
    ∀ (i : Nat) (l : List Nat), xorKs kb nonce i (xorKs kb nonce i l) = l
  | _, [] => rfl
  | i, b :: rest => by
    simp only [xorKs, Nat.xor_cancel_right, xorKs_xorKs kb nonce (i + 1) rest]

theorem tagBytes_length (kb nonce ct : List Nat) :
    (tagBytes kb nonce ct).length = 16 := by
  simp [tagBytes]

theorem aeadSeal_length (kb nonce pt : List Nat) :
    (aeadSeal kb nonce pt).length = pt.length + 16 := by
  simp [aeadSeal, xorKs_length, tagBytes_length]

theorem aeadOpen_aeadSeal (kb nonce pt : List Nat) :
    aeadOpen kb nonce (aeadSeal kb nonce pt) = some pt := by
  have hseal : aeadSeal kb nonce pt =
      xorKs kb nonce 0 pt ++ tagBytes kb nonce (xorKs kb nonce 0 pt) := rfl
  have hlen : (aeadSeal kb nonce pt).length = (xorKs kb nonce 0 pt).length + 16 := by
    rw [hseal]; simp [tagBytes_length]
  have hct : (xorKs kb nonce 0 pt).length = (aeadSeal kb nonce pt).length - 16 := by
    omega
  have htake : (aeadSeal kb nonce pt).take ((aeadSeal kb nonce pt).length - 16) =
      xorKs kb nonce 0 pt := by
    rw [hseal] at hct ⊢; exact List.take_left' hct
  have hdrop : (aeadSeal kb nonce pt).drop ((aeadSeal kb nonce pt).length - 16) =
      tagBytes kb nonce (xorKs kb nonce 0 pt) := by
    rw [hseal] at hct ⊢; exact List.drop_left' hct
  unfold aeadOpen
  rw [if_neg (by omega), htake, hdrop, if_pos rfl, xorKs_xorKs]

theorem parse_key_length {k kb : List Nat} (h : parse_key k = .ok kb) :
    kb.length = 32 := by
  simp only [parse_key] at h
  split at h
  all_goals try split at h
  all_goals try split at h
  all_goals try split at h
  all_goals try split at h
  all_goals try split at h
  all_goals first
  | (cases h; assumption)
  | exact Except.noConfusion h

theorem hexVal_hexDigit {n : Nat} (h : n < 16) : hexVal (hexDigit n) = some n := by
  interval_cases n <;> rfl

theorem hexDecode_hexEncode : ∀ l : List Nat, (∀ b ∈ l, b < 256) →
    hexDecode (hexEncode l) = some l
  | [], _ => rfl
  | b :: rest, h => by
    have hb : b < 256 := h b (List.mem_cons_self b rest)
    have h1 : hexVal (hexDigit (b / 16)) = some (b / 16) := hexVal_hexDigit (by omega)
    have h2 : hexVal (hexDigit (b % 16)) = some (b % 16) := hexVal_hexDigit (by omega)
    have ih := hexDecode_hexEncode rest (fun x hx => h x (List.mem_cons_of_mem b hx))
    show hexDecode (hexDigit (b / 16) :: hexDigit (b % 16) :: hexEncode rest) = _
    simp only [hexDecode, h1, h2, ih]
    have : b / 16 * 16 + b % 16 = b := by omega
    rw [this]

theorem hexEncode_length : ∀ l : List Nat, (hexEncode l).length = 2 * l.length
  | [] => rfl
  | _ :: rest => by
    show (hexEncode rest).length + 1 + 1 = _
    rw [hexEncode_length rest]; simp [Nat.mul_add]

theorem hexDecode_length : ∀ {l r : List Nat}, hexDecode l = some r →
    l.length = 2 * r.length
  | [], _, h => by cases h; rfl
  | [_], _, h => Option.noConfusion h
  | a :: b :: rest, r, h => by
    simp only [hexDecode] at h
    split at h
    next hi lo tl hha hhb hht =>
      cases h
      have := hexDecode_length hht
      simp only [List.length_cons]
      omega
    next => exact Option.noConfusion h

theorem b64Val_b64Char {n : Nat} (h : n < 64) : b64Val (b64Char n) = some n := by
  interval_cases n <;> rfl

theorem b64Char_ne_pad {n : Nat} (h : n < 64) : b64Char n ≠ 61 := by
  interval_cases n <;> decide

theorem b64Decode_b64Encode : ∀ l : List Nat, (∀ b ∈ l, b < 256) →
    b64Decode (b64Encode l) = some l
  | [], _ => rfl
  | [x], h => by
    have hx : x < 256 := h x (by simp)
    have h1 : b64Val (b64Char (x / 4)) = some (x / 4) := b64Val_b64Char (by omega)
    have h2 : b64Val (b64Char ((x % 4) * 16)) = some ((x % 4) * 16) :=
      b64Val_b64Char (by omega)
    show b64Decode [b64Char (x / 4), b64Char ((x % 4) * 16), 61, 61] = some [x]
    have hz : x % 4 * 16 % 16 = 0 := by omega
    have e1 : x / 4 * 4 + x % 4 * 16 / 16 = x := by omega
    simp [b64Decode, h1, h2, hz, e1]
    all_goals omega
  | [x, y], h => by
    have hx : x < 256 := h x (by simp)
    have hy : y < 256 := h y (by simp)
    have h1 : b64Val (b64Char (x / 4)) = some (x / 4) := b64Val_b64Char (by omega)
    have h2 : b64Val (b64Char ((x % 4) * 16 + y / 16)) = some ((x % 4) * 16 + y / 16) :=
      b64Val_b64Char (by omega)
    have h3 : b64Val (b64Char ((y % 16) * 4)) = some ((y % 16) * 4) :=
      b64Val_b64Char (by omega)
    have hp3 : b64Char ((y % 16) * 4) ≠ 61 := b64Char_ne_pad (by omega)
    have hz : y % 16 * 4 % 4 = 0 := by omega
    have e1 : x / 4 * 4 + (x % 4 * 16 + y / 16) / 16 = x := by omega
    have e2 : (x % 4 * 16 + y / 16) % 16 * 16 + y % 16 * 4 / 4 = y := by omega
    show b64Decode [b64Char (x / 4), b64Char ((x % 4) * 16 + y / 16),
        b64Char ((y % 16) * 4), 61] = some [x, y]
    simp [b64Decode, h1, h2, h3, hp3, hz, e1, e2]
    all_goals omega
  | x :: y :: z :: rest, h => by
    have hx : x < 256 := h x (by simp)
    have hy : y < 256 := h y (by simp)
    have hz : z < 256 := h z (by simp)
    have h1 : b64Val (b64Char (x / 4)) = some (x / 4) := b64Val_b64Char (by omega)
    have h2 : b64Val (b64Char ((x % 4) * 16 + y / 16)) = some ((x % 4) * 16 + y / 16) :=
      b64Val_b64Char (by omega)
    have h3 : b64Val (b64Char ((y % 16) * 4 + z / 64)) = some ((y % 16) * 4 + z / 64) :=
      b64Val_b64Char (by omega)
    have h4 : b64Val (b64Char (z % 64)) = some (z % 64) := b64Val_b64Char (by omega)
    have ih := b64Decode_b64Encode rest (fun w hw => h w (by simp [hw]))
    have hp3 : b64Char ((y % 16) * 4 + z / 64) ≠ 61 := b64Char_ne_pad (by omega)
    have hp4 : b64Char (z % 64) ≠ 61 := b64Char_ne_pad (by omega)
    have e1 : x / 4 * 4 + (x % 4 * 16 + y / 16) / 16 = x := by omega
    have e2 : (x % 4 * 16 + y / 16) % 16 * 16 + (y % 16 * 4 + z / 64) / 4 = y := by omega
    have e3 : (y % 16 * 4 + z / 64) % 4 * 64 + z % 64 = z := by omega
    show b64Decode (b64Char (x / 4) :: b64Char ((x % 4) * 16 + y / 16) ::
        b64Char ((y % 16) * 4 + z / 64) :: b64Char (z % 64) :: b64Encode rest) =
        some (x :: y :: z :: rest)
    simp [b64Decode, h1, h2, h3, h4, ih, hp3, hp4, e1, e2, e3]

theorem b64Encode_length : ∀ l : List Nat,
    (b64Encode l).length = 4 * ((l.length + 2) / 3)
  | [] => rfl
  | [_] => by norm_num [b64Encode]
  | [_, _] => by norm_num [b64Encode]
  | _ :: _ :: _ :: rest => by
    show (b64Encode rest).length + 1 + 1 + 1 + 1 = _
    rw [b64Encode_length rest]
    simp only [List.length_cons]
    omega

theorem parse_key_raw {k : List Nat} (h32 : k.length = 32) :
    parse_key k = .ok k := by
  have hne : k ≠ [] := by
    intro he; rw [he] at h32; simp at h32
  simp [parse_key, hne, h32]

theorem parse_key_default : parse_key [] = .ok DEFAULT_KEY := rfl

theorem parse_key_hex {k r : List Nat} (hne : k ≠ []) (hn32 : k.length ≠ 32)
    (hd : hexDecode k = some r) (hr : r.length = 32) :
    parse_key k = .ok r := by
  simp [parse_key, hne, hn32, hd, hr]

theorem parse_key_b64 {k r : List Nat} (hne : k ≠ []) (hn32 : k.length ≠ 32)
    (hhex : ∀ r', hexDecode k = some r' → r'.length ≠ 32)
    (hd : b64Decode k = some r) (hr : r.length = 32) :
    parse_key k = .ok r := by
  simp only [parse_key, if_neg hne, if_neg hn32]
  cases hh : hexDecode k with
  | none => simp [hd, hr]
  | some r' =>
    have := hhex r' hh
    simp [hd, hr, this]

theorem parse_key_fail {k : List Nat} (hne : k ≠ []) (hn32 : k.length ≠ 32)
    (hhex : ∀ r, hexDecode k = some r → r.length ≠ 32)
    (hb64 : ∀ r, b64Decode k = some r → r.length ≠ 32) :
    parse_key k = .error .keyFormat := by
  simp only [parse_key, if_neg hne, if_neg hn32]
  cases hh : hexDecode k with
  | none =>
    cases hb : b64Decode k with
    | none => rfl
    | some r => simp [hb64 r hb]
  | some r' =>
    have h1 := hhex r' hh
    cases hb : b64Decode k with
    | none => simp [h1]
    | some r => simp [h1, hb64 r hb]

theorem encrypt_bytes_ok {key kb : List Nat} (nonce pt : List Nat)
    (hk : parse_key key = .ok kb) :
    encrypt_bytes key nonce pt = .ok (nonce ++ aeadSeal kb nonce pt) := by
  have h32 := parse_key_length hk
  simp [encrypt_bytes, hk, new_from_slice, h32]

theorem decrypt_bytes_seal {key kb : List Nat} (nonce pt : List Nat)
    (hk : parse_key key = .ok kb) (hn : nonce.length = 12) :
    decrypt_bytes key (nonce ++ aeadSeal kb nonce pt) = .ok pt := by
  have h32 := parse_key_length hk
  have hlen : (nonce ++ aeadSeal kb nonce pt).length = pt.length + 28 := by
    simp [aeadSeal_length, hn]; omega
  have htake : (nonce ++ aeadSeal kb nonce pt).take 12 = nonce :=
    List.take_left' hn
  have hdrop : (nonce ++ aeadSeal kb nonce pt).drop 12 = aeadSeal kb nonce pt :=
    List.drop_left' hn
  have hge : ¬ ((nonce ++ aeadSeal kb nonce pt).length < 12) := by omega
  simp [decrypt_bytes, hk, new_from_slice, h32, hge, htake, hdrop, aeadOpen_aeadSeal]
  omega

theorem round_trip {key kb : List Nat} (nonce pt : List Nat)
    (hk : parse_key key = .ok kb) (hn : nonce.length = 12) :
    ∃ blob, encrypt_bytes key nonce pt = .ok blob ∧
      decrypt_bytes key blob = .ok pt :=
  ⟨nonce ++ aeadSeal kb nonce pt, encrypt_bytes_ok nonce pt hk,
    decrypt_bytes_seal nonce pt hk hn⟩

/-! ## Claims -/

/-- C1: for every valid key string (one `parse_key` accepts) and every
plaintext byte sequence, including the empty one, decrypting the blob produced
by `encrypt_bytes` with the same key returns exactly the plaintext.  The
random nonce drawn inside `encrypt_bytes` is passed explicitly. -/
theorem C1_round_trip (key kb nonce pt : List Nat)
    (hk : parse_key key = .ok kb) (hn : nonce.length = 12) :
    ∃ blob, encrypt_bytes key nonce pt = .ok blob ∧
      decrypt_bytes key blob = .ok pt :=
  round_trip nonce pt hk hn

/-- Witness for C1 at the empty key (default-key fallback), a 12-byte nonce
and the plaintext "hi". -/
theorem C1_round_trip_witness :
    ∃ blob, encrypt_bytes [] (List.range 12) [104, 105] = .ok blob ∧
      decrypt_bytes [] blob = .ok [104, 105] :=
  C1_round_trip [] DEFAULT_KEY (List.range 12) [104, 105] rfl rfl

/-- C2: for every valid key and plaintext the blob is laid out as the 12-byte
nonce, a ciphertext of exactly the plaintext's length, then a 16-byte tag, so
its total length is the plaintext's length plus 28. -/
theorem C2_wire_format (key kb nonce pt : List Nat)
    (hk : parse_key key = .ok kb) (hn : nonce.length = 12) :
    ∃ ct tag : List Nat, encrypt_bytes key nonce pt = .ok (nonce ++ ct ++ tag) ∧
      ct.length = pt.length ∧ tag.length = 16 ∧
      (nonce ++ ct ++ tag).length = pt.length + 28 := by
  refine ⟨xorKs kb nonce 0 pt, tagBytes kb nonce (xorKs kb nonce 0 pt), ?_, ?_, ?_, ?_⟩
  · rw [List.append_assoc]
    exact encrypt_bytes_ok nonce pt hk
  · exact xorKs_length kb nonce 0 pt
  · exact tagBytes_length kb nonce (xorKs kb nonce 0 pt)
  · simp [xorKs_length, tagBytes_length, hn]
    omega

/-- Witness for C2 at a 64-character hex key and the 11-byte plaintext
"hello world" (blob length 11 + 28 = 39) and at the empty plaintext (blob
length 28). -/
theorem C2_wire_format_witness :
    (∃ ct tag : List Nat,
      encrypt_bytes (hexEncode DEFAULT_KEY) (List.range 12)
          [104, 101, 108, 108, 111, 32, 119, 111, 114, 108, 100] =
        .ok (List.range 12 ++ ct ++ tag) ∧
      ct.length = 11 ∧ tag.length = 16 ∧
      (List.range 12 ++ ct ++ tag).length = 39) ∧
    (∃ ct tag : List Nat,
      encrypt_bytes (hexEncode DEFAULT_KEY) (List.range 12) [] =
        .ok (List.range 12 ++ ct ++ tag) ∧
      ct.length = 0 ∧ tag.length = 16 ∧
      (List.range 12 ++ ct ++ tag).length = 28) :=
  ⟨C2_wire_format (hexEncode DEFAULT_KEY) DEFAULT_KEY (List.range 12)
      [104, 101, 108, 108, 111, 32, 119, 111, 114, 108, 100] rfl rfl,
   C2_wire_format (hexEncode DEFAULT_KEY) DEFAULT_KEY (List.range 12) [] rfl rfl⟩

/-- C3: `parse_key` follows the strict priority order: empty input is replaced
by the built-in default; a string of byte length exactly 32 is taken raw (never
decoded); otherwise hex decoding is tried and accepted only at exactly 32
decoded bytes; otherwise base64 decoding likewise; wrong-length decodes fall
through rather than erroring; if nothing yields 32 bytes the result is the
key-format error. -/
theorem C3_parse_key_priority :
    parse_key [] = parse_key DEFAULT_KEY ∧
    (∀ k : List Nat, k.length = 32 → parse_key k = .ok k) ∧
    (∀ k r : List Nat, k ≠ [] → k.length ≠ 32 → hexDecode k = some r →
      r.length = 32 → parse_key k = .ok r) ∧
    (∀ k r : List Nat, k ≠ [] → k.length ≠ 32 →
      (∀ r', hexDecode k = some r' → r'.length ≠ 32) →
      b64Decode k = some r → r.length = 32 → parse_key k = .ok r) ∧
    (∀ k : List Nat, k ≠ [] → k.length ≠ 32 →
      (∀ r, hexDecode k = some r → r.length ≠ 32) →
      (∀ r, b64Decode k = some r → r.length ≠ 32) →
      parse_key k = .error .keyFormat) :=
  ⟨rfl, fun _ h => parse_key_raw h,
   fun _ _ h1 h2 h3 h4 => parse_key_hex h1 h2 h3 h4,
   fun _ _ h1 h2 h3 h4 h5 => parse_key_b64 h1 h2 h3 h4 h5,
   fun _ h1 h2 h3 h4 => parse_key_fail h1 h2 h3 h4⟩

/-- Witness for C3: a 32-character all-'0' string (also valid hex) is taken
raw; the 64-character hex encoding of the default key decodes to it; the
44-character base64 encoding of the default key decodes to it after hex
decoding fails; the 1-character string "x" fails with the key-format error. -/
theorem C3_parse_key_priority_witness :
    parse_key (List.replicate 32 48) = .ok (List.replicate 32 48) ∧
    parse_key (hexEncode DEFAULT_KEY) = .ok DEFAULT_KEY ∧
    parse_key (b64Encode DEFAULT_KEY) = .ok DEFAULT_KEY ∧
    parse_key [120] = .error .keyFormat :=
  ⟨C3_parse_key_priority.2.1 (List.replicate 32 48) (by decide),
   C3_parse_key_priority.2.2.1 (hexEncode DEFAULT_KEY) DEFAULT_KEY
     (by decide) (by decide) (by decide) (by decide),
   C3_parse_key_priority.2.2.2.1 (b64Encode DEFAULT_KEY) DEFAULT_KEY
     (by decide) (by decide)
     (by intro r' h
         rw [show hexDecode (b64Encode DEFAULT_KEY) = none from by decide] at h
         cases h)
     (by decide) (by decide),
   C3_parse_key_priority.2.2.2.2 [120] (by decide) (by decide)
     (by intro r h
         rw [show hexDecode [120] = none from by decide] at h
         cases h)
     (by intro r h
         rw [show b64Decode [120] = none from by decide] at h
         cases h)⟩

/-- C4: for every key string (well-formed or not) and every blob shorter than
12 bytes, including the empty blob, `decrypt_bytes` fails with the framing
error; the length check precedes key normalization and cipher construction,
which is why no hypothesis on the key is needed. -/
theorem C4_short_blob (key blob : List Nat) (h : blob.length < 12) :
    decrypt_bytes key blob = .error .framing := by
  simp [decrypt_bytes, h]

/-- Witness for C4 at a malformed 1-byte key and the empty blob. -/
theorem C4_short_blob_witness :
    decrypt_bytes [120] [] = .error .framing :=
  C4_short_blob [120] [] (by decide)

/-- C5: the empty key string and the built-in default key string normalize to
identical key bytes, and a blob produced under either decrypts under the
other. -/
theorem C5_default_key (pt nonce : List Nat) (hn : nonce.length = 12) :
    parse_key [] = parse_key DEFAULT_KEY ∧
    (∃ blob, encrypt_bytes [] nonce pt = .ok blob ∧
      decrypt_bytes DEFAULT_KEY blob = .ok pt) ∧
    (∃ blob, encrypt_bytes DEFAULT_KEY nonce pt = .ok blob ∧
      decrypt_bytes [] blob = .ok pt) :=
  ⟨rfl,
   ⟨nonce ++ aeadSeal DEFAULT_KEY nonce pt,
     encrypt_bytes_ok nonce pt rfl, decrypt_bytes_seal nonce pt rfl hn⟩,
   ⟨nonce ++ aeadSeal DEFAULT_KEY nonce pt,
     encrypt_bytes_ok nonce pt rfl, decrypt_bytes_seal nonce pt rfl hn⟩⟩

/-- Witness for C5 at the plaintext [1, 2, 3] and a 12-byte nonce. -/
theorem C5_default_key_witness :
    parse_key [] = parse_key DEFAULT_KEY ∧
    (∃ blob, encrypt_bytes [] (List.range 12) [1, 2, 3] = .ok blob ∧
      decrypt_bytes DEFAULT_KEY blob = .ok [1, 2, 3]) ∧
    (∃ blob, encrypt_bytes DEFAULT_KEY (List.range 12) [1, 2, 3] = .ok blob ∧
      decrypt_bytes [] blob = .ok [1, 2, 3]) :=
  C5_default_key [1, 2, 3] (List.range 12) rfl

/-- C6: for every 32-byte value, `parse_key` of its 64-character hex encoding
returns exactly that value; `parse_key` of its standard base64 encoding
(whose length is not 32) returns it as well; and when the value is itself a
valid UTF-8 string its raw 32-byte form is returned unchanged, the raw path
taking precedence at input length exactly 32. -/
theorem C6_encoding_equivalence (v : List Nat) (h32 : v.length = 32)
    (hb : ∀ b ∈ v, b < 256) :
    parse_key (hexEncode v) = .ok v ∧
    ((b64Encode v).length ≠ 32 → parse_key (b64Encode v) = .ok v) ∧
    (validUtf8 v = true → parse_key v = .ok v) := by
  have hhexlen : (hexEncode v).length = 64 := by rw [hexEncode_length]; omega
  have hb64len : (b64Encode v).length = 44 := by rw [b64Encode_length]; omega
  refine ⟨?_, fun _ => ?_, fun _ => parse_key_raw h32⟩
  · exact parse_key_hex (by intro he; rw [he] at hhexlen; simp at hhexlen)
      (by omega) (hexDecode_hexEncode v hb) h32
  · refine parse_key_b64 (by intro he; rw [he] at hb64len; simp at hb64len)
      (by omega) ?_ (b64Decode_b64Encode v hb) h32
    intro r' hr'
    have := hexDecode_length hr'
    omega

/-- Witness for C6 at the default key's 32 bytes. -/
theorem C6_encoding_equivalence_witness :
    parse_key (hexEncode DEFAULT_KEY) = .ok DEFAULT_KEY ∧
    parse_key (b64Encode DEFAULT_KEY) = .ok DEFAULT_KEY ∧
    parse_key DEFAULT_KEY = .ok DEFAULT_KEY :=
  ⟨(C6_encoding_equivalence DEFAULT_KEY rfl (by decide)).1,
   (C6_encoding_equivalence DEFAULT_KEY rfl (by decide)).2.1 (by decide),
   (C6_encoding_equivalence DEFAULT_KEY rfl (by decide)).2.2 (by decide)⟩

/-- C8: with the two fresh draws of the secure random source passed explicitly
as nonces, two encryptions of the same key and plaintext under distinct drawn
nonces produce blobs that differ in their first 12 bytes, and each blob
independently decrypts back to the plaintext. -/
theorem C8_nonce_nondeterminism (key kb pt n1 n2 : List Nat)
    (hk : parse_key key = .ok kb) (h1 : n1.length = 12) (h2 : n2.length = 12)
    (hne : n1 ≠ n2) :
    ∃ b1 b2, encrypt_bytes key n1 pt = .ok b1 ∧ encrypt_bytes key n2 pt = .ok b2 ∧
      b1.take 12 ≠ b2.take 12 ∧
      decrypt_bytes key b1 = .ok pt ∧ decrypt_bytes key b2 = .ok pt := by
  refine ⟨n1 ++ aeadSeal kb n1 pt, n2 ++ aeadSeal kb n2 pt,
    encrypt_bytes_ok n1 pt hk, encrypt_bytes_ok n2 pt hk, ?_,
    decrypt_bytes_seal n1 pt hk h1, decrypt_bytes_seal n2 pt hk h2⟩
  rw [List.take_left' h1, List.take_left' h2]
  exact hne

/-- Witness for C8 at the empty key, plaintext [7], and two distinct concrete
12-byte nonces. -/
theorem C8_nonce_nondeterminism_witness :
    ∃ b1 b2, encrypt_bytes [] (List.range 12) [7] = .ok b1 ∧
      encrypt_bytes [] (List.replicate 12 0) [7] = .ok b2 ∧
      b1.take 12 ≠ b2.take 12 ∧
      decrypt_bytes [] b1 = .ok [7] ∧ decrypt_bytes [] b2 = .ok [7] :=
  C8_nonce_nondeterminism [] DEFAULT_KEY [7] (List.range 12)
    (List.replicate 12 0) rfl rfl (by decide) (by decide)

/-- C9: for every valid key and every blob of length at least 12 but below 28,
`decrypt_bytes` passes the framing check and fails with the AEAD
(authentication) error, not the framing error: only the 12-byte nonce prefix
is validated up front. -/
theorem C9_short_tag_aead_error (key kb blob : List Nat)
    (hk : parse_key key = .ok kb) (h12 : 12 ≤ blob.length)
    (h28 : blob.length < 28) :
    decrypt_bytes key blob = .error .aeadError := by
  have h32 := parse_key_length hk
  have hge : ¬ (blob.length < 12) := by omega
  have hlt : (blob.drop 12).length < 16 := by
    rw [List.length_drop]; omega
  have hlt2 : blob.length - 12 < 16 := by omega
  simp [decrypt_bytes, hk, new_from_slice, h32, hge, aeadOpen, hlt, hlt2]

/-- Witness for C9 at the empty key and a 20-byte blob. -/
theorem C9_short_tag_aead_error_witness :
    decrypt_bytes [] (List.range 20) = .error .aeadError :=
  C9_short_tag_aead_error [] DEFAULT_KEY (List.range 20) rfl (by decide) (by decide)

/-- C10: the raw-key path of `parse_key` tests the UTF-8 byte length of the
input, not its character count: every key whose UTF-8 encoding is exactly 32
bytes is taken byte-for-byte, and there are valid UTF-8 keys of fewer than 32
characters (multi-byte characters) with 32-byte encodings that are taken raw,
never decoded. -/
theorem C10_raw_key_byte_length :
    (∀ k : List Nat, k.length = 32 → parse_key k = .ok k) ∧
    (∃ k : List Nat, validUtf8 k = true ∧ utf8CharCount k < 32 ∧
      k.length = 32 ∧ parse_key k = .ok k) := by
  refine ⟨fun _ h => parse_key_raw h, ?_⟩
  refine ⟨[228, 184, 173, 228, 184, 173, 228, 184, 173, 228, 184, 173,
           228, 184, 173, 228, 184, 173, 228, 184, 173, 228, 184, 173,
           228, 184, 173, 228, 184, 173, 97, 98], by decide, by decide, by decide,
    parse_key_raw (by decide)⟩

/-- Witness for C10: the raw-path clause applied to a concrete 32-byte string
of twelve characters (ten three-byte CJK characters and two ASCII letters). -/
theorem C10_raw_key_byte_length_witness :
    parse_key [228, 184, 173, 228, 184, 173, 228, 184, 173, 228, 184, 173,
               228, 184, 173, 228, 184, 173, 228, 184, 173, 228, 184, 173,
               228, 184, 173, 228, 184, 173, 97, 98] =
      .ok [228, 184, 173, 228, 184, 173, 228, 184, 173, 228, 184, 173,
           228, 184, 173, 228, 184, 173, 228, 184, 173, 228, 184, 173,
           228, 184, 173, 228, 184, 173, 97, 98] :=
  C10_raw_key_byte_length.1 _ (by decide)

end StrategyCrypto
